import Mathlib

/-!
A verification development for the packster mapping engine
(src/packster/map/mapper.py, heuristics.py, registry.py,
src/packster/validate/brew.py, src/packster/types.py, src/packster/config.py).

Modelling conventions:
* Python floats are modelled as rationals; no property below depends on
  binary rounding (the only arithmetic is halving, clamping and comparison
  against the fixed thresholds).
* Python dicts are modelled as association lists in insertion order
  (Python dicts preserve insertion order).
* The external existence checks exists_in_brew / exists_in_cask are
  external process calls; they are modelled as oracle parameters
  eb ec : String -> Bool (an exception inside them already yields False in
  the source, so a total Bool function is faithful).
* The regular-expression dialect actually used by the program
  (literal characters, dot, plus, capture groups, backslash-d, anchors)
  is given an executable semantics below that mirrors Python re:
  re.match is anchored at the start only, backtracking is greedy and
  leftmost-preferring, re.sub replaces non-overlapping occurrences and
  expands backslash-digit references.  Constructs outside this dialect
  parse to none and such a rule matches nothing.
-/

/-- Decision enum from src/packster/types.py. -/
inductive Decision where
  | auto
  | verify
  | manual
  | skip
deriving DecidableEq, Repr, BEq

/-- The string value of a Decision, as in the Python str-enum
(Decision.SKIP.value is the string "skip"). -/
def Decision.value : Decision → String
  | .auto => "auto"
  | .verify => "verify"
  | .manual => "manual"
  | .skip => "skip"

/-- PackageManager enum from src/packster/types.py. -/
inductive PackageManager where
  | apt
  | pip
  | npm
  | cargo
  | gem
deriving DecidableEq, Repr, BEq

/-- NormalizedItem from src/packster/types.py. -/
structure NormalizedItem where
  source_pm : PackageManager
  source_name : String
  version : Option String := none
  category : Option String := none
  meta : List (String × String) := []
deriving DecidableEq, Repr

/-- Candidate from src/packster/types.py.  Confidence is modelled as a
rational. -/
structure Candidate where
  target_pm : String
  target_name : String
  kind : Option String := none
  confidence : ℚ
  reason : Option String := none
  post_install : List String := []
deriving DecidableEq, Repr

/-- MappingResult from src/packster/types.py. -/
structure MappingResult where
  source : NormalizedItem
  candidate : Option Candidate := none
  decision : Decision
  notes : Option String := none
deriving DecidableEq, Repr

/-- RegistryMapping from src/packster/map/registry.py. -/
structure RegistryMapping where
  source_name : Option String := none
  target_pm : String
  target_name : String
  confidence : ℚ := 0.8
  reason : Option String := some "Registry mapping"
  post_install : List String := []
  notes : Option String := none
deriving DecidableEq, Repr

/-- Registry from src/packster/map/registry.py; the mappings and aliases
dicts are association lists in insertion order. -/
structure Registry where
  name : String
  description : Option String := none
  version : String := "1.0"
  mappings : List (String × RegistryMapping) := []
  aliases : List (String × String) := []
deriving DecidableEq, Repr

/-- HeuristicRule from src/packster/map/heuristics.py.  The pattern is the
raw pattern string exactly as in the source. -/
structure HeuristicRule where
  pattern : String
  target_pm : String
  target_name : String
  confidence : ℚ
  reason : String
  is_regex : Bool := false
  post_install : List String := []
deriving DecidableEq, Repr

/-- DECISION_THRESHOLDS["auto"] from src/packster/config.py. -/
def autoThreshold : ℚ := 0.90

/-- DECISION_THRESHOLDS["verify"] from src/packster/config.py. -/
def verifyThreshold : ℚ := 0.60

/-! ## Regular expressions

An executable model of the Python re dialect used by the program. -/

/-- Regex abstract syntax for the dialect used by the program's patterns. -/
inductive Re where
  | eps
  | char (c : Char)
  | anyc
  | digit
  | eos
  | group (r : Re)
  | plus (r : Re)
  | seq (a b : Re)
deriving DecidableEq, Repr

/-- Size of a regex, used to compute recursion fuel. -/
def reSize : Re → Nat
  | .eps => 1
  | .char _ => 1
  | .anyc => 1
  | .digit => 1
  | .eos => 1
  | .group r => reSize r + 1
  | .plus r => reSize r + 1
  | .seq a b => reSize a + reSize b + 1

/-- All ways a regex matches a prefix of the character list, in Python
backtracking preference order (greedy alternatives first).  Each entry is
the remaining suffix paired with the captured groups in group-opening
order.  The Nat argument is recursion fuel; every recursive call spends
one unit, and call sites supply enough fuel for the whole search. -/
def msplits : Nat → Re → List Char → List (List Char × List (List Char))
  | 0, _, _ => []
  | _ + 1, .eps, s => [(s, [])]
  | _ + 1, .char c, s =>
      match s with
      | [] => []
      | x :: rest => if x = c then [(rest, [])] else []
  | _ + 1, .anyc, s =>
      match s with
      | [] => []
      | _ :: rest => [(rest, [])]
  | _ + 1, .digit, s =>
      match s with
      | [] => []
      | x :: rest => if x.isDigit then [(rest, [])] else []
  | _ + 1, .eos, s => if s = [] then [([], [])] else []
  | fuel + 1, .group r, s =>
      (msplits fuel r s).map (fun pr => (pr.1, s.take (s.length - pr.1.length) :: pr.2))
  | fuel + 1, .plus r, s =>
      (msplits fuel r s).flatMap (fun pr =>
        if pr.1.length < s.length then
          (msplits fuel (.plus r) pr.1) ++ [pr]
        else [pr])
  | fuel + 1, .seq a b, s =>
      (msplits fuel a s).flatMap (fun pr =>
        (msplits fuel b pr.1).map (fun pr2 => (pr2.1, pr.2 ++ pr2.2)))

/-- Fuel that is ample for the backtracking search on the dialect above. -/
def matchFuel (r : Re) (s : List Char) : Nat :=
  (reSize r + 2) * (s.length + 2)

/-- Python re.match: the preferred match of the regex against a prefix of
the input (anchored at the start only). -/
def pymatch (r : Re) (s : List Char) : Option (List Char × List (List Char)) :=
  (msplits (matchFuel r s) r s).head?

/-- Whether the regex matches the entire input (Python re.fullmatch
viewed as a predicate). -/
def pyfullmatchB (r : Re) (s : List Char) : Bool :=
  (msplits (matchFuel r s) r s).any (fun pr => pr.1.isEmpty)

/-- One item of a Python re.sub replacement template: a literal character
or a backslash-digit group reference. -/
inductive TmplItem where
  | lit (c : Char)
  | ref (n : Nat)
deriving DecidableEq, Repr

/-- Parse a Python replacement template string: a backslash followed by a
digit is a group reference, any other escaped character is itself. -/
def parseTmpl : List Char → List TmplItem
  | [] => []
  | '\\' :: c :: rest =>
      if c.isDigit then TmplItem.ref (c.toNat - '0'.toNat) :: parseTmpl rest
      else TmplItem.lit c :: parseTmpl rest
  | c :: rest => TmplItem.lit c :: parseTmpl rest

/-- Expand a replacement template against the captured groups
(group 1 is the first capture). -/
def expandTmpl (tmpl : List TmplItem) (caps : List (List Char)) : List Char :=
  tmpl.flatMap fun it =>
    match it with
    | .lit c => [c]
    | .ref n => caps.getD (n - 1) []

/-- Scanning core of Python re.sub for an unanchored pattern: at each
position try the preferred match; replace it and continue after it, or
copy one character and advance. -/
def pysubAux (r : Re) (tmpl : List TmplItem) : Nat → List Char → List Char
  | 0, s => s
  | fuel + 1, s =>
      match (msplits (matchFuel r s) r s).head? with
      | some pr =>
          if pr.1.length < s.length then
            expandTmpl tmpl pr.2 ++ pysubAux r tmpl fuel pr.1
          else
            match s with
            | [] => expandTmpl tmpl pr.2
            | c :: rest => expandTmpl tmpl pr.2 ++ c :: pysubAux r tmpl fuel rest
      | none =>
          match s with
          | [] => []
          | c :: rest => c :: pysubAux r tmpl fuel rest

/-- Python re.sub.  A caret-anchored pattern can only match at position
zero, so at most one replacement happens there; otherwise the input is
scanned left to right. -/
def pysub (caret : Bool) (r : Re) (tmpl : List TmplItem) (s : List Char) : List Char :=
  if caret then
    match (msplits (matchFuel r s) r s).head? with
    | some pr =>
        if pr.1.length < s.length then expandTmpl tmpl pr.2 ++ pr.1
        else expandTmpl tmpl pr.2 ++ s
    | none => s
  else pysubAux r tmpl (s.length + 1) s

/-- Right-nested sequence of a list of regexes. -/
def seqAll (items : List Re) : Re := items.foldr Re.seq Re.eps

/-- Recursive-descent state for the pattern compiler: a stack of open
groups, each a reversed list of the atoms read so far. -/
def parseReAux : List Char → List (List Re) → Option Re
  | [], [items] => some (seqAll items.reverse)
  | [], _ => none
  | '(' :: rest, stack => parseReAux rest ([] :: stack)
  | ')' :: rest, items :: parent :: stack =>
      parseReAux rest ((Re.group (seqAll items.reverse) :: parent) :: stack)
  | ')' :: _, _ => none
  | '+' :: rest, (a :: items) :: stack => parseReAux rest ((Re.plus a :: items) :: stack)
  | '+' :: _, _ => none
  | '.' :: rest, items :: stack => parseReAux rest ((Re.anyc :: items) :: stack)
  | '$' :: rest, items :: stack => parseReAux rest ((Re.eos :: items) :: stack)
  | '\\' :: 'd' :: rest, items :: stack => parseReAux rest ((Re.digit :: items) :: stack)
  | '\\' :: c :: rest, items :: stack => parseReAux rest ((Re.char c :: items) :: stack)
  | '\\' :: [], _ => none
  | '*' :: _, _ => none
  | '?' :: _, _ => none
  | '|' :: _, _ => none
  | '[' :: _, _ => none
  | '^' :: _, _ => none
  | c :: rest, items :: stack => parseReAux rest ((Re.char c :: items) :: stack)
  | _ :: _, [] => none

/-- Compile a pattern string of the supported dialect.  Returns whether
the pattern starts with a caret, and the compiled body.  Unsupported
constructs yield none. -/
def parseRe (p : String) : Option (Bool × Re) :=
  match p.toList with
  | '^' :: rest => (parseReAux rest [[]]).map (fun r => (true, r))
  | cs => (parseReAux cs [[]]).map (fun r => (false, r))

/-! ## Heuristics (src/packster/map/heuristics.py) -/

/-- DEFAULT_HEURISTICS from src/packster/map/heuristics.py, verbatim. -/
def DEFAULT_HEURISTICS : List HeuristicRule :=
  [ { pattern := "fd-find", target_pm := "brew", target_name := "fd",
      confidence := 0.9, reason := "fd-find is the Ubuntu package name for fd" },
    { pattern := "python3-pip", target_pm := "brew", target_name := "python@3.12",
      confidence := 0.6, reason := "python3-pip suggests Python 3 installation" },
    { pattern := "gnome-terminal", target_pm := "cask", target_name := "iterm2",
      confidence := 0.8, reason := "GUI terminal on macOS" },
    { pattern := "docker.io", target_pm := "cask", target_name := "docker",
      confidence := 0.85, reason := "Docker Desktop on macOS" },
    { pattern := "nodejs", target_pm := "brew", target_name := "node",
      confidence := 0.9, reason := "nodejs is the Ubuntu package name for node" },
    { pattern := "python3", target_pm := "brew", target_name := "python@3.12",
      confidence := 0.8, reason := "Python 3 on macOS" },
    { pattern := "^lib(.+)$", target_pm := "brew", target_name := "\\1",
      confidence := 0.3, reason := "Library packages often have lib prefix",
      is_regex := true },
    { pattern := "^(.+)-dev$", target_pm := "brew", target_name := "\\1",
      confidence := 0.4, reason := "Development packages often have -dev suffix",
      is_regex := true },
    { pattern := "^(.+)-dbg$", target_pm := "brew", target_name := "\\1",
      confidence := 0.3, reason := "Debug packages often have -dbg suffix",
      is_regex := true },
    { pattern := "^(.+)-doc$", target_pm := "brew", target_name := "\\1",
      confidence := 0.2, reason := "Documentation packages often have -doc suffix",
      is_regex := true } ]

/-- One loop iteration of apply_heuristics: does the rule match the source
name, and if so which (target_pm, target_name, confidence, reason) tuple
does it contribute?  A regex rule matches via re.match (anchored at the
start only) and its target name is re.sub(pattern, target_name,
source_name); a non-regex rule requires string equality. -/
def matchRule (source_name : String) (rule : HeuristicRule) :
    Option (String × String × ℚ × String) :=
  if rule.is_regex then
    match parseRe rule.pattern with
    | none => none
    | some (caret, r) =>
        match pymatch r source_name.toList with
        | none => none
        | some _ =>
            let target_name :=
              String.mk (pysub caret r (parseTmpl rule.target_name.toList) source_name.toList)
            some (rule.target_pm, target_name, rule.confidence, rule.reason)
  else
    if source_name = rule.pattern then
      some (rule.target_pm, rule.target_name, rule.confidence, rule.reason)
    else none

/-- apply_heuristics from src/packster/map/heuristics.py: collect the
tuples of all matching rules, then sort by confidence descending
(Python list.sort with reverse=True is stable, as is mergeSort). -/
def apply_heuristics (source_name : String) (heuristics : List HeuristicRule) :
    List (String × String × ℚ × String) :=
  (heuristics.filterMap (matchRule source_name)).mergeSort
    (fun a b => decide (b.2.2.1 ≤ a.2.2.1))

/-- The version-suffix pattern of apply_common_patterns, compiled. -/
def versionRe : Re :=
  (((parseRe "^(.+)-(\\d+\\.\\d+)$").map Prod.snd).getD Re.eps)

/-- apply_common_patterns from src/packster/map/heuristics.py. -/
def apply_common_patterns (source_name : String) :
    List (String × String × ℚ × String) :=
  let patterns1 : List (String × String × ℚ × String) :=
    if source_name.startsWith "python3-" then
      let base_name := source_name.drop 8
      [("brew", base_name, (0.7 : ℚ), "Python package: " ++ base_name)]
    else []
  let patterns2 : List (String × String × ℚ × String) :=
    if source_name.endsWith "-bin" then
      let base_name := source_name.dropRight 4
      [("brew", base_name, (0.6 : ℚ), "Binary package: " ++ base_name)]
    else []
  let patterns3 : List (String × String × ℚ × String) :=
    match pymatch versionRe source_name.toList with
    | some pr =>
        let base_name := String.mk (pr.2.getD 0 [])
        [("brew", base_name, (0.5 : ℚ), "Versioned package: " ++ base_name)]
    | none => []
  patterns1 ++ patterns2 ++ patterns3

/-- Whether the first character list is an initial segment of the second. -/
def startsWithSeq : List Char → List Char → Bool
  | [], _ => true
  | _ :: _, [] => false
  | a :: as, b :: bs => a == b && startsWithSeq as bs

/-- Whether the first character list occurs contiguously in the second. -/
def pyInAux : List Char → List Char → Bool
  | needle, [] => needle.isEmpty
  | needle, c :: rest2 => startsWithSeq needle (c :: rest2) || pyInAux needle rest2

/-- Python substring containment (the in operator on strings). -/
def pyIn (needle hay : String) : Bool :=
  pyInAux needle.toList hay.toList

/-- apply_category_based_mapping from src/packster/map/heuristics.py. -/
def apply_category_based_mapping (source_name : String)
    (category : Option String := none) : List (String × String × ℚ × String) :=
  let lower := source_name.toLower
  if category == some "databases" || pyIn "postgres" lower || pyIn "mysql" lower
      || pyIn "sqlite" lower || pyIn "redis" lower then
    if pyIn "postgres" lower then [("brew", "postgresql", (0.8 : ℚ), "PostgreSQL database")]
    else if pyIn "mysql" lower then [("brew", "mysql", (0.8 : ℚ), "MySQL database")]
    else if pyIn "sqlite" lower then [("brew", "sqlite", (0.8 : ℚ), "SQLite database")]
    else if pyIn "redis" lower then [("brew", "redis", (0.8 : ℚ), "Redis database")]
    else []
  else if category == some "development" || pyIn "git" lower || pyIn "vim" lower
      || pyIn "tmux" lower || pyIn "htop" lower then
    if pyIn "git" lower then [("brew", "git", (0.9 : ℚ), "Git version control")]
    else if pyIn "vim" lower then [("brew", "vim", (0.9 : ℚ), "Vim editor")]
    else if pyIn "tmux" lower then [("brew", "tmux", (0.9 : ℚ), "Tmux terminal multiplexer")]
    else if pyIn "htop" lower then [("brew", "htop", (0.9 : ℚ), "Htop process viewer")]
    else []
  else if category == some "utilities" || pyIn "curl" lower || pyIn "wget" lower
      || pyIn "jq" lower || pyIn "ripgrep" lower then
    if pyIn "curl" lower then [("brew", "curl", (0.9 : ℚ), "cURL HTTP client")]
    else if pyIn "wget" lower then [("brew", "wget", (0.9 : ℚ), "Wget download utility")]
    else if pyIn "jq" lower then [("brew", "jq", (0.9 : ℚ), "jq JSON processor")]
    else if pyIn "ripgrep" lower then [("brew", "ripgrep", (0.9 : ℚ), "ripgrep search tool")]
    else []
  else []

/-! ## Registry (src/packster/map/registry.py) -/

/-- First-match association-list lookup, the model of a Python dict
access. -/
def lookupAssoc {α : Type} (l : List (String × α)) (k : String) : Option α :=
  (l.find? (fun p => p.1 == k)).map Prod.snd

/-- find_mapping from src/packster/map/registry.py: exact key first, then
the alias indirection, then a case-insensitive scan in insertion order. -/
def find_mapping (registry : Registry) (source_name : String) :
    Option RegistryMapping :=
  match lookupAssoc registry.mappings source_name with
  | some m => some m
  | none =>
      match (match lookupAssoc registry.aliases source_name with
             | some aliased => lookupAssoc registry.mappings aliased
             | none => none) with
      | some m => some m
      | none =>
          (registry.mappings.find?
            (fun p => p.1.toLower == source_name.toLower)).map Prod.snd

/-- One entry of the parsed registry YAML mappings section: either a full
structured record (absent fields take the pydantic defaults) or the bare
string shorthand. -/
inductive YamlMapVal where
  | record (target_pm : String) (target_name : String)
      (confidence : Option ℚ) (reason : Option String)
      (post_install : Option (List String)) (notes : Option String)
  | shorthand (target : String)
deriving DecidableEq, Repr

/-- The parsed top-level registry YAML document. -/
structure RegYaml where
  name : Option String := none
  description : Option String := none
  version : Option String := none
  aliases : List (String × String) := []
  mappings : List (String × YamlMapVal) := []
deriving DecidableEq, Repr

/-- Conversion of one YAML mapping entry into a RegistryMapping, as in
load_registry: the structured form applies the field defaults, the string
shorthand means target-formula with confidence 0.9. -/
def convertMapping (source_name : String) : YamlMapVal → RegistryMapping
  | .record tpm tname conf reason post notes =>
      { source_name := some source_name, target_pm := tpm, target_name := tname,
        confidence := conf.getD 0.8, reason := some (reason.getD "Registry mapping"),
        post_install := post.getD [], notes := notes }
  | .shorthand target =>
      { source_name := some source_name, target_pm := "brew", target_name := target,
        confidence := 0.9, reason := some "Direct mapping from registry",
        post_install := [], notes := none }

/-- load_registry from src/packster/map/registry.py.  The file system is
modelled by the file_exists flag and the YAML layer by the parsed
argument (an error models yaml.YAMLError).  A missing file yields the
empty default registry rather than an error. -/
def load_registry (file_exists : Bool) (parsed : Except String RegYaml) :
    Except String Registry :=
  if !file_exists then
    Except.ok { name := "Default Registry", description := none, version := "1.0",
                mappings := [], aliases := [] }
  else
    match parsed with
    | Except.error e => Except.error e
    | Except.ok data =>
        Except.ok { name := data.name.getD "default",
                    description := data.description,
                    version := data.version.getD "1.0",
                    aliases := data.aliases,
                    mappings := data.mappings.map
                      (fun p => (p.1, convertMapping p.1 p.2)) }

/-! ## Validation (src/packster/validate/brew.py) -/

/-- PackageMapper._validate_candidate: the existence check used by the
mapper, dispatching on the target namespace; unknown namespaces are
assumed valid. -/
def validateCandidate (eb ec : String → Bool) (candidate : Candidate) : Bool :=
  if candidate.target_pm = "brew" then eb candidate.target_name
  else if candidate.target_pm = "cask" then ec candidate.target_name
  else true

/-- validate_brew_candidates from src/packster/validate/brew.py: every
candidate is kept; one whose existence check fails is rebuilt with
confidence max 0 (confidence * 0.5). -/
def validate_brew_candidates (eb ec : String → Bool) : List Candidate → List Candidate
  | [] => []
  | cand :: rest =>
      let is_valid :=
        if cand.target_pm = "brew" then eb cand.target_name
        else if cand.target_pm = "cask" then ec cand.target_name
        else true
      let new_conf :=
        if !is_valid then max 0 (cand.confidence * 0.5) else cand.confidence
      { target_pm := cand.target_pm, target_name := cand.target_name,
        confidence := new_conf, reason := cand.reason, kind := cand.kind,
        post_install := cand.post_install } :: validate_brew_candidates eb ec rest

/-- The candidate transformation exactly as the spec words it (section
4.4): a failing check halves the confidence clamping below at 0, a
passing check and an unrecognized namespace leave the candidate
unchanged.  Spec-side definition, for comparison with the source. -/
def specDowngrade (eb ec : String → Bool) (c : Candidate) : Candidate :=
  if c.target_pm = "brew" then
    if eb c.target_name then c else { c with confidence := max 0 (c.confidence * 0.5) }
  else if c.target_pm = "cask" then
    if ec c.target_name then c else { c with confidence := max 0 (c.confidence * 0.5) }
  else c

/-! ## Mapper (src/packster/map/mapper.py) -/

/-- Conversion of a heuristic tuple into a Candidate as in
map_single_package (kind is not set). -/
def tupleToCandidate (t : String × String × ℚ × String) : Candidate :=
  { target_pm := t.1, target_name := t.2.1, confidence := t.2.2.1,
    reason := some t.2.2.2 }

/-- Conversion of a registry mapping into a Candidate as in
map_single_package steps 1. -/
def registryToCandidate (m : RegistryMapping) : Candidate :=
  { target_pm := m.target_pm, target_name := m.target_name,
    confidence := m.confidence, reason := m.reason,
    post_install := m.post_install }

/-- Steps 1-4 of PackageMapper.map_single_package: the candidate list as
gathered before validation.  A registry hit suppresses the heuristics;
pattern and category candidates are always appended. -/
def gatherCandidates (registry : Registry) (package : NormalizedItem) :
    List Candidate :=
  let source_name := package.source_name
  let candidates : List Candidate :=
    match find_mapping registry source_name with
    | some registry_mapping => [registryToCandidate registry_mapping]
    | none => []
  let candidates :=
    if candidates.isEmpty then
      candidates ++ (apply_heuristics source_name DEFAULT_HEURISTICS).map tupleToCandidate
    else candidates
  let candidates :=
    candidates ++ (apply_common_patterns source_name).map tupleToCandidate
  let candidates :=
    candidates ++ (apply_category_based_mapping source_name package.category).map tupleToCandidate
  candidates

/-- The candidate list after step 5 of map_single_package: when verify is
enabled and the list is non-empty, candidates failing the existence check
are removed (removed, not downgraded). -/
def pipelineCandidates (eb ec : String → Bool) (registry : Registry)
    (verify : Bool) (package : NormalizedItem) : List Candidate :=
  let candidates := gatherCandidates registry package
  if verify && !candidates.isEmpty then
    candidates.filter (validateCandidate eb ec)
  else candidates

/-- Python max(candidates, key=confidence) over a non-empty list: the
running maximum is replaced only on a strictly greater confidence, so the
first maximum wins ties. -/
def pymaxByConf (c : Candidate) (rest : List Candidate) : Candidate :=
  rest.foldl (fun best x => if x.confidence > best.confidence then x else best) c

/-- PackageMapper._make_decision: MANUAL on the empty list, otherwise the
fixed thresholds applied to the best candidate's confidence. -/
def makeDecision : List Candidate → Decision
  | [] => Decision.manual
  | c :: rest =>
      let best_candidate := pymaxByConf c rest
      if best_candidate.confidence ≥ autoThreshold then Decision.auto
      else if best_candidate.confidence ≥ verifyThreshold then Decision.verify
      else Decision.manual

/-- PackageMapper.map_single_package: gather, optionally validate, decide,
and retain candidates[0] (the first candidate, not the best one). -/
def map_single_package (eb ec : String → Bool) (registry : Registry)
    (verify : Bool) (package : NormalizedItem) : MappingResult :=
  let candidates := pipelineCandidates eb ec registry verify package
  { source := package, candidate := candidates.head?,
    decision := makeDecision candidates, notes := none }

/-- PackageMapper.map_packages / the map_packages convenience function:
one result per input item, in order. -/
def map_packages (eb ec : String → Bool) (registry : Registry) (verify : Bool)
    (packages : List NormalizedItem) : List MappingResult :=
  packages.map (map_single_package eb ec registry verify)

/-! ## Statistics and filtering (src/packster/map/mapper.py) -/

/-- The statistics dictionary of get_mapping_statistics.  The four
decision counters are kept as an association list with exactly the keys
the source initializes, so that the Python KeyError on a missing key can
be modelled. -/
structure MappingStats where
  total : Nat
  decision_counts : List (String × Nat)
  by_target_pm : List (String × Nat)
  high : Nat
  medium : Nat
  low : Nat
deriving DecidableEq, Repr

/-- Increment an existing key of a counter dict; none models the Python
KeyError raised when the key is absent. -/
def incrKey : List (String × Nat) → String → Option (List (String × Nat))
  | [], _ => none
  | (k, v) :: rest, key =>
      if k = key then some ((k, v + 1) :: rest)
      else (incrKey rest key).map (fun r => (k, v) :: r)

/-- dict.get(key, 0) + 1 style increment that never fails, used for the
by_target_pm counters. -/
def bumpAssoc (l : List (String × Nat)) (key : String) : List (String × Nat) :=
  match incrKey l key with
  | some r => r
  | none => l ++ [(key, 1)]

/-- One loop iteration of get_mapping_statistics; none models a raised
KeyError. -/
def statsStep (stats : MappingStats) (result : MappingResult) :
    Option MappingStats :=
  match incrKey stats.decision_counts result.decision.value with
  | none => none
  | some dc =>
      match result.candidate with
      | none => some { stats with decision_counts := dc }
      | some c =>
          let pm_counts := bumpAssoc stats.by_target_pm c.target_pm
          let base := { stats with decision_counts := dc, by_target_pm := pm_counts }
          if c.confidence ≥ 0.9 then some { base with high := base.high + 1 }
          else if c.confidence ≥ 0.6 then some { base with medium := base.medium + 1 }
          else some { base with low := base.low + 1 }

/-- The statistics dict as initialized by get_mapping_statistics: note the
decision-counter keys, in particular "skipped" (while Decision.skip.value
is "skip"). -/
def initStats (results : List MappingResult) : MappingStats :=
  { total := results.length,
    decision_counts := [("auto", 0), ("verify", 0), ("manual", 0), ("skipped", 0)],
    by_target_pm := [], high := 0, medium := 0, low := 0 }

/-- get_mapping_statistics from src/packster/map/mapper.py; none models an
uncaught KeyError escaping the loop. -/
def get_mapping_statistics (results : List MappingResult) : Option MappingStats :=
  results.foldlM statsStep (initStats results)

/-- Sum of the per-decision counters of a statistics value. -/
def sumDecisionCounts (s : MappingStats) : Nat :=
  (s.decision_counts.map Prod.snd).sum

/-- Python truthiness of the decisions argument of
filter_mapping_results: None and the empty list are falsy. -/
def decisionTruthy : Option (List Decision) → Bool
  | none => false
  | some ds => !ds.isEmpty

/-- filter_mapping_results from src/packster/map/mapper.py: a result is
skipped when the decisions filter is truthy and does not contain its
decision, or when it has a candidate whose confidence is strictly below
min_confidence. -/
def filter_mapping_results (results : List MappingResult)
    (decisions : Option (List Decision)) (min_confidence : ℚ) :
    List MappingResult :=
  results.filter (fun result =>
    !(decisionTruthy decisions && !((decisions.getD []).contains result.decision))
    &&
    !(match result.candidate with
      | some c => decide (c.confidence < min_confidence)
      | none => false))

/-! ## Spec-side definitions (for refinement comparisons) and fixtures -/

/-- The fixed threshold function of the spec, section 4.5: AUTO at or
above 0.90, VERIFY at or above 0.60, MANUAL below.  Spec-side
definition. -/
def decisionFromConfidence (q : ℚ) : Decision :=
  if q ≥ autoThreshold then Decision.auto
  else if q ≥ verifyThreshold then Decision.verify
  else Decision.manual

/-- Rule matching exactly as the claim words it: a regex rule matches
only when the whole source name is matched (a full-string regex match); a
non-regex rule matches by string equality.  Spec-side definition, for
comparison with matchRule. -/
def specRuleMatchesFull (source_name : String) (rule : HeuristicRule) : Bool :=
  if rule.is_regex then
    match parseRe rule.pattern with
    | none => false
    | some pr => pyfullmatchB pr.2 source_name.toList
  else source_name == rule.pattern

/-- An empty registry fixture. -/
def emptyRegistry : Registry := { name := "test" }

/-- Fixture: the apt package libgit2. -/
def itemLibgit2 : NormalizedItem := { source_pm := .apt, source_name := "libgit2" }

/-- Fixture: the apt package libfoo. -/
def itemLibfoo : NormalizedItem := { source_pm := .apt, source_name := "libfoo" }

/-- Fixture: the apt package tmux-2.8. -/
def itemTmux28 : NormalizedItem := { source_pm := .apt, source_name := "tmux-2.8" }

/-- Fixture: the apt package git. -/
def itemGit : NormalizedItem := { source_pm := .apt, source_name := "git" }

/-- Fixture: the apt package fd-find. -/
def itemFdFind : NormalizedItem := { source_pm := .apt, source_name := "fd-find" }

/-- Fixture: the apt package git-2.0. -/
def itemGitVer : NormalizedItem := { source_pm := .apt, source_name := "git-2.0" }

/-- Fixture registry mapping for git. -/
def mGit : RegistryMapping :=
  { source_name := some "git", target_pm := "brew", target_name := "git",
    confidence := 0.95, reason := some "Direct mapping" }

/-- Fixture registry containing only the git mapping. -/
def regGit : Registry := { name := "test", mappings := [("git", mGit)] }

/-- Fixture registry mapping sending git-2.0 to the formula gitx. -/
def mGitVer : RegistryMapping :=
  { source_name := some "git-2.0", target_pm := "brew", target_name := "gitx",
    confidence := 0.95, reason := some "Registry mapping" }

/-- Fixture registry containing only the git-2.0 mapping. -/
def regVer : Registry := { name := "test", mappings := [("git-2.0", mGitVer)] }

/-- Fixture: the candidate heuristics produce for fd-find. -/
def cFdBrew : Candidate :=
  { target_pm := "brew", target_name := "fd", confidence := 0.9,
    reason := some "fd-find is the Ubuntu package name for fd" }

/-- Fixture: a high-confidence candidate. -/
def cHigh : Candidate :=
  { target_pm := "brew", target_name := "git", confidence := 0.95,
    reason := some "Direct mapping" }

/-- Fixture: a mapping result carrying the SKIP decision and no
candidate. -/
def skipResult : MappingResult :=
  { source := { source_pm := .apt, source_name := "some-tool" },
    candidate := none, decision := Decision.skip }

/-- Fixture: a candidate-less MANUAL result. -/
def manualResult : MappingResult :=
  { source := { source_pm := .apt, source_name := "zzqq" },
    candidate := none, decision := Decision.manual }

/-- Fixture: an apt package matching no registry entry, heuristic,
pattern or category. -/
def itemZzqq : NormalizedItem := { source_pm := .apt, source_name := "zzqq" }

/-- Fixture: a regex rule whose pattern matches a proper prefix of the
name gitk. -/
def ruleGitRegex : HeuristicRule :=
  { pattern := "git", target_pm := "brew", target_name := "x",
    confidence := 0.5, reason := "r", is_regex := true }

/-! ## Theorems -/

/-- Claim C1, counterexample.  With verification enabled, the mapper's
validation step (step 5 of map_single_package) removes candidates whose
existence check fails instead of keeping them with halved confidence: on
the git fixture the gathered list has two candidates and the
post-validation list is empty, so the output list length is not
preserved. -/
theorem mapper_verify_drops_failing_candidates :
    (gatherCandidates regGit itemGit).length = 2 ∧
    (pipelineCandidates (fun _ => false) (fun _ => false) regGit true itemGit).length = 0 := by
  with_unfolding_all decide

/-- Claim C2, counterexample.  For libgit2 the retained candidate is the
first gathered one (the lib-prefix heuristic at confidence 0.3), while a
category candidate of confidence 0.9 is also in the candidate list: the
retained candidate is not the one of maximum confidence. -/
theorem mapper_retains_first_not_best :
    (map_single_package (fun _ => true) (fun _ => true) emptyRegistry false itemLibgit2).candidate =
      some { target_pm := "brew", target_name := "git2", confidence := 0.3,
             reason := some "Library packages often have lib prefix" } ∧
    ({ target_pm := "brew", target_name := "git", confidence := 0.9,
       reason := some "Git version control" } : Candidate) ∈
      pipelineCandidates (fun _ => true) (fun _ => true) emptyRegistry false itemLibgit2 ∧
    (0.3 : ℚ) < 0.9 := by
  with_unfolding_all decide

/-- Claim C3, counterexample.  For tmux-2.8 the retained candidate has
confidence 0.5, whose threshold value is MANUAL, yet the decision is
AUTO (computed from the maximum confidence 0.9 in the candidate list):
the decision is not the threshold function of the retained candidate's
confidence. -/
theorem decision_not_function_of_retained_candidate :
    ((map_single_package (fun _ => true) (fun _ => true) emptyRegistry false itemTmux28).candidate.map
        (fun c => decisionFromConfidence c.confidence)) = some Decision.manual ∧
    (map_single_package (fun _ => true) (fun _ => true) emptyRegistry false itemTmux28).decision =
      Decision.auto := by
  with_unfolding_all decide

/-- Claim C5, counterexample.  The source name git-2.0 has a registry
match (target gitx), but with verification enabled and gitx failing the
existence check the registry candidate is dropped and a pattern candidate
is retained, whose targetName and reason are not those of the registry
entry. -/
theorem verify_replaces_registry_candidate :
    find_mapping regVer "git-2.0" = some mGitVer ∧
    (map_single_package (fun n => n == "git") (fun _ => false) regVer true itemGitVer).candidate =
      some { target_pm := "brew", target_name := "git", confidence := 0.5,
             reason := some "Versioned package: git" } ∧
    mGitVer.target_name = "gitx" ∧
    mGitVer.reason = some "Registry mapping" := by
  with_unfolding_all decide

/-- Claim C6.  get_mapping_statistics raises a KeyError (modelled as
none) on a result list containing a SKIP decision, because the counter
dict is initialized with the key skipped while Decision.skip.value is the
string skip; on the empty list it returns with every counter zero. -/
theorem statistics_fail_on_skip :
    get_mapping_statistics [skipResult] = none ∧
    get_mapping_statistics [] = some (initStats []) ∧
    sumDecisionCounts (initStats []) = 0 ∧
    (initStats []).total = 0 := by
  with_unfolding_all decide

/-- Claim C7, counterexample.  A regex rule whose pattern matches only a
proper prefix of the source name (pattern git against name gitk) is
returned by apply_heuristics even though it does not match the full
string: matching is Python re.match, anchored at the start only.  The
replacement also shows the re.sub behaviour, producing xk rather than a
pure capture substitution. -/
theorem regex_rule_matches_prefix_counterexample :
    apply_heuristics "gitk" [ruleGitRegex] = [("brew", "xk", (0.5 : ℚ), "r")] ∧
    specRuleMatchesFull "gitk" ruleGitRegex = false := by
  with_unfolding_all decide

/-- Helper: validate_brew_candidates is the elementwise spec downgrade. -/
theorem validate_brew_candidates_eq_map (eb ec : String → Bool) (cands : List Candidate) :
    validate_brew_candidates eb ec cands = cands.map (specDowngrade eb ec) := by
  induction cands with
  | nil => rfl
  | cons c rest ih =>
      simp only [validate_brew_candidates, List.map_cons]
      rw [ih]
      congr 1
      obtain ⟨tpm, tname, kd, conf, rs, pi⟩ := c
      unfold specDowngrade
      by_cases h1 : tpm = "brew"
      · subst h1
        by_cases h2 : eb tname <;> simp [h2]
      · by_cases h3 : tpm = "cask"
        · subst h3
          by_cases h4 : ec tname <;> simp [h1, h4]
        · simp [h1, h3]

/-- Claim C1 (amended).  The validator function validate_brew_candidates
keeps every candidate: the output equals the input mapped through the
spec downgrade (a failing existence check halves confidence clamping at
0; passing checks and unrecognized namespaces are unchanged), so the
length is preserved.  The mapper's own verify step behaves differently:
see the counterexample. -/
theorem validate_brew_candidates_spec (eb ec : String → Bool) (cands : List Candidate) :
    validate_brew_candidates eb ec cands = cands.map (specDowngrade eb ec) ∧
    (validate_brew_candidates eb ec cands).length = cands.length := by
  refine ⟨validate_brew_candidates_eq_map eb ec cands, ?_⟩
  rw [validate_brew_candidates_eq_map eb ec cands, List.length_map]

/-- Claim C2 (amended).  The mapper retains the head of the
post-validation candidate list (candidates[0]), which is a member of
that list but need not be the candidate of maximum confidence. -/
theorem mapper_retains_head_candidate (eb ec : String → Bool) (registry : Registry)
    (verify : Bool) (package : NormalizedItem) :
    (map_single_package eb ec registry verify package).candidate =
      (pipelineCandidates eb ec registry verify package).head? ∧
    ∀ c, (map_single_package eb ec registry verify package).candidate = some c →
      c ∈ pipelineCandidates eb ec registry verify package := by
  refine ⟨rfl, ?_⟩
  intro c hc
  have h : (pipelineCandidates eb ec registry verify package).head? = some c := hc
  cases hl : pipelineCandidates eb ec registry verify package with
  | nil => rw [hl] at h; cases h
  | cons a rest =>
      rw [hl] at h
      cases h
      exact List.mem_cons_self _ _

/-- Claim C3 (amended).  The decision is MANUAL whenever the candidate is
absent, and the decision is determined by the post-validation candidate
list: it is the fixed threshold function of the maximum confidence in
that list (which can differ from the retained candidate's confidence). -/
theorem decision_determined_by_candidate_list (eb ec : String → Bool) (registry : Registry)
    (verify : Bool) (package : NormalizedItem) :
    (map_single_package eb ec registry verify package).decision =
      makeDecision (pipelineCandidates eb ec registry verify package) ∧
    ((map_single_package eb ec registry verify package).candidate = none →
      (map_single_package eb ec registry verify package).decision = Decision.manual) ∧
    (∀ c rest, pipelineCandidates eb ec registry verify package = c :: rest →
      (map_single_package eb ec registry verify package).decision =
        decisionFromConfidence (pymaxByConf c rest).confidence) := by
  refine ⟨rfl, ?_, ?_⟩
  · intro h
    have hl : pipelineCandidates eb ec registry verify package = [] := by
      cases hl : pipelineCandidates eb ec registry verify package with
      | nil => rfl
      | cons a rest =>
          have h2 : (pipelineCandidates eb ec registry verify package).head? = none := h
          rw [hl] at h2
          cases h2
    show makeDecision (pipelineCandidates eb ec registry verify package) = Decision.manual
    rw [hl]
    rfl
  · intro c rest h
    show makeDecision (pipelineCandidates eb ec registry verify package) =
      decisionFromConfidence (pymaxByConf c rest).confidence
    rw [h]
    rfl

/-- Claim C8.  When the registry file does not exist, load_registry does
not fail: it returns the empty registry (no mappings, no aliases) named
Default Registry, for any state of the YAML layer. -/
theorem load_registry_missing_file (parsed : Except String RegYaml) :
    load_registry false parsed =
      Except.ok { name := "Default Registry", description := none, version := "1.0",
                  mappings := [], aliases := [] } := rfl

/-- Helper: the running maximum computed by pymaxByConf occurs in the
list, everything before its first occurrence has strictly smaller
confidence, and everything after it has confidence at most its own: the
first maximum wins ties. -/
theorem pymax_split (xs : List Candidate) : ∀ (c : Candidate),
    ∃ l1 l2, c :: xs = l1 ++ pymaxByConf c xs :: l2 ∧
      (∀ y ∈ l1, y.confidence < (pymaxByConf c xs).confidence) ∧
      (∀ y ∈ l2, y.confidence ≤ (pymaxByConf c xs).confidence) := by
  induction xs with
  | nil =>
      intro c
      exact ⟨[], [], rfl, by simp, by simp⟩
  | cons x xs ih =>
      intro c
      by_cases hx : x.confidence > c.confidence
      · have hrw : pymaxByConf c (x :: xs) = pymaxByConf x xs := by
          simp [pymaxByConf, List.foldl_cons, hx]
        rw [hrw]
        obtain ⟨l1, l2, heq, h1, h2⟩ := ih x
        set r := pymaxByConf x xs with hrdef
        have hxle : x.confidence ≤ r.confidence := by
          have hmem := List.mem_cons_self x xs
          rw [heq] at hmem
          rcases List.mem_append.1 hmem with h | h
          · exact le_of_lt (h1 _ h)
          · rcases List.mem_cons.1 h with h | h
            · exact le_of_eq (congrArg Candidate.confidence h)
            · exact h2 _ h
        refine ⟨c :: l1, l2, ?_, ?_, h2⟩
        · rw [List.cons_append, ← heq]
        · intro y hy
          rcases List.mem_cons.1 hy with h | h
          · rw [h]
            exact lt_of_lt_of_le hx hxle
          · exact h1 _ h
      · have hxc : x.confidence ≤ c.confidence := le_of_not_lt hx
        have hrw : pymaxByConf c (x :: xs) = pymaxByConf c xs := by
          simp [pymaxByConf, List.foldl_cons, hx]
        rw [hrw]
        obtain ⟨l1, l2, heq, h1, h2⟩ := ih c
        set r := pymaxByConf c xs with hrdef
        cases l1 with
        | nil =>
            rw [List.nil_append] at heq
            injection heq with hr hl
            refine ⟨[], x :: xs, ?_, by simp, ?_⟩
            · rw [List.nil_append, ← hr]
            · intro y hy
              rcases List.mem_cons.1 hy with h | h
              · rw [h, ← hr]
                exact hxc
              · rw [hl] at h
                exact h2 _ h
        | cons a l1t =>
            rw [List.cons_append] at heq
            injection heq with ha hxs
            have hclt : c.confidence < r.confidence := by
              apply h1
              rw [ha]
              exact List.mem_cons_self _ _
            refine ⟨c :: x :: l1t, l2, ?_, ?_, h2⟩
            · rw [List.cons_append, List.cons_append, ← hxs]
            · intro y hy
              rcases List.mem_cons.1 hy with h | h
              · rw [h]
                exact hclt
              · rcases List.mem_cons.1 h with h | h
                · rw [h]
                  exact lt_of_le_of_lt hxc hclt
                · exact h1 _ (List.mem_cons_of_mem _ h)

/-- Claim C4.  The decision function returns MANUAL on the empty list;
otherwise it selects the candidate of maximum confidence (the first
maximum in encounter order, witnessed by the split of the list) and
applies the fixed thresholds: AUTO at or above 0.90, VERIFY in
[0.60, 0.90), MANUAL below 0.60. -/
theorem make_decision_spec (c : Candidate) (rest : List Candidate) :
    makeDecision [] = Decision.manual ∧
    (∃ l1 l2, c :: rest = l1 ++ pymaxByConf c rest :: l2 ∧
      (∀ y ∈ l1, y.confidence < (pymaxByConf c rest).confidence) ∧
      (∀ y ∈ l2, y.confidence ≤ (pymaxByConf c rest).confidence)) ∧
    ((pymaxByConf c rest).confidence ≥ 0.90 → makeDecision (c :: rest) = Decision.auto) ∧
    (0.60 ≤ (pymaxByConf c rest).confidence ∧ (pymaxByConf c rest).confidence < 0.90 →
      makeDecision (c :: rest) = Decision.verify) ∧
    ((pymaxByConf c rest).confidence < 0.60 → makeDecision (c :: rest) = Decision.manual) := by
  have hd : makeDecision (c :: rest) =
      decisionFromConfidence (pymaxByConf c rest).confidence := rfl
  refine ⟨rfl, pymax_split rest c, ?_, ?_, ?_⟩
  · intro h
    rw [hd]
    unfold decisionFromConfidence
    rw [if_pos]
    show autoThreshold ≤ (pymaxByConf c rest).confidence
    unfold autoThreshold
    exact h
  · rintro ⟨h1, h2⟩
    rw [hd]
    unfold decisionFromConfidence
    rw [if_neg, if_pos]
    · show verifyThreshold ≤ (pymaxByConf c rest).confidence
      unfold verifyThreshold
      exact h1
    · show ¬ autoThreshold ≤ (pymaxByConf c rest).confidence
      unfold autoThreshold
      exact not_le.2 h2
  · intro h
    rw [hd]
    unfold decisionFromConfidence
    rw [if_neg, if_neg]
    · show ¬ verifyThreshold ≤ (pymaxByConf c rest).confidence
      unfold verifyThreshold
      intro hle
      exact absurd h (not_lt.2 (le_trans (by norm_num) hle))
    · show ¬ autoThreshold ≤ (pymaxByConf c rest).confidence
      unfold autoThreshold
      intro hle
      exact absurd h (not_lt.2 (le_trans (by norm_num) hle))

/-- Witness for claim C4 at a concrete input: a single 0.95-confidence
candidate yields AUTO. -/
theorem make_decision_spec_witness : makeDecision [cHigh] = Decision.auto :=
  (make_decision_spec cHigh []).2.2.1 (by with_unfolding_all decide)

/-- Witness for claim C2 (amended) at a concrete input: the retained
fd candidate is a member of the candidate list for fd-find. -/
theorem mapper_retains_head_candidate_witness :
    cFdBrew ∈ pipelineCandidates (fun _ => true) (fun _ => true) emptyRegistry false itemFdFind :=
  (mapper_retains_head_candidate (fun _ => true) (fun _ => true) emptyRegistry false
    itemFdFind).2 cFdBrew (by with_unfolding_all decide)

/-- Witness for claim C3 (amended) at a concrete input: an unmapped
package gets no candidate and decision MANUAL. -/
theorem decision_determined_witness :
    (map_single_package (fun _ => true) (fun _ => true) emptyRegistry false itemZzqq).decision =
      Decision.manual :=
  (decision_determined_by_candidate_list (fun _ => true) (fun _ => true) emptyRegistry false
    itemZzqq).2.1 (by with_unfolding_all decide)

/-- Claim C5 (amended).  On a registry hit the heuristics are never
consulted: the gathered list is exactly the registry candidate followed
by the pattern and category candidates.  With verification disabled the
retained candidate is the registry one, carrying the registry entry's
targetName and reason.  (With verification enabled, a registry candidate
failing the existence check can be dropped and replaced by a pattern or
category candidate: see the counterexample.) -/
theorem registry_hit_suppresses_heuristics (registry : Registry) (package : NormalizedItem)
    (m : RegistryMapping) (h : find_mapping registry package.source_name = some m) :
    gatherCandidates registry package =
      registryToCandidate m ::
        ((apply_common_patterns package.source_name).map tupleToCandidate ++
         (apply_category_based_mapping package.source_name package.category).map tupleToCandidate) ∧
    (∀ eb ec, (map_single_package eb ec registry false package).candidate =
      some (registryToCandidate m)) ∧
    (registryToCandidate m).target_name = m.target_name ∧
    (registryToCandidate m).reason = m.reason := by
  have hg : gatherCandidates registry package =
      registryToCandidate m ::
        ((apply_common_patterns package.source_name).map tupleToCandidate ++
         (apply_category_based_mapping package.source_name package.category).map tupleToCandidate) := by
    simp only [gatherCandidates, h]
    simp
  refine ⟨hg, ?_, rfl, rfl⟩
  intro eb ec
  have hp : pipelineCandidates eb ec registry false package =
      gatherCandidates registry package := by
    unfold pipelineCandidates
    simp
  show (pipelineCandidates eb ec registry false package).head? = some (registryToCandidate m)
  rw [hp, hg]
  rfl

/-- Witness for claim C5 (amended) at a concrete input: with verification
disabled, the git registry entry is the retained candidate. -/
theorem registry_hit_suppresses_heuristics_witness :
    (map_single_package (fun _ => true) (fun _ => true) regGit false itemGit).candidate =
      some (registryToCandidate mGit) :=
  (registry_hit_suppresses_heuristics regGit itemGit mGit
    (by with_unfolding_all decide)).2.1 (fun _ => true) (fun _ => true)

/-- Claim C7 (amended).  apply_heuristics returns exactly the rules that
match, where a regex rule matches via a start-anchored (prefix) regex
match (Python re.match, not a full-string match) with the target name
produced by re.sub of the pattern in the source name against the target
template, and a non-regex rule matches by string equality; the output is
a permutation of the matched tuples, sorted by confidence descending. -/
theorem apply_heuristics_exact_and_sorted (source_name : String)
    (rules : List HeuristicRule) :
    (apply_heuristics source_name rules).Perm (rules.filterMap (matchRule source_name)) ∧
    List.Pairwise (fun a b => b.2.2.1 ≤ a.2.2.1) (apply_heuristics source_name rules) ∧
    (∀ t, t ∈ apply_heuristics source_name rules ↔
      ∃ rule, rule ∈ rules ∧ matchRule source_name rule = some t) := by
  refine ⟨List.mergeSort_perm _ _, ?_, ?_⟩
  · have hs := @List.sorted_mergeSort (String × String × ℚ × String)
      (fun a b => decide (b.2.2.1 ≤ a.2.2.1))
      (fun a b c hab hbc => by
        simp only [decide_eq_true_eq] at *
        exact le_trans hbc hab)
      (fun a b => by
        simp only [Bool.or_eq_true, decide_eq_true_eq]
        exact le_total b.2.2.1 a.2.2.1)
      (rules.filterMap (matchRule source_name))
    exact hs.imp (fun h => of_decide_eq_true h)
  · intro t
    unfold apply_heuristics
    rw [List.mem_mergeSort, List.mem_filterMap]

/-- Helper: a successful snd-projected find? result is the second
component of a list member. -/
theorem findSnd_mem {α : Type} (l : List (String × α)) (pred : String × α → Bool) (v : α)
    (h : ((l.find? pred).map Prod.snd) = some v) : ∃ p ∈ l, p.2 = v := by
  cases hf : l.find? pred with
  | none => rw [hf] at h; cases h
  | some p =>
      rw [hf] at h
      simp only [Option.map_some'] at h
      injection h with h2
      exact ⟨p, List.mem_of_find?_eq_some hf, h2⟩

/-- Helper: every mapping returned by find_mapping is a value of the
registry's mapping table. -/
theorem find_mapping_mem (registry : Registry) (n : String) (m : RegistryMapping)
    (h : find_mapping registry n = some m) : ∃ p ∈ registry.mappings, p.2 = m := by
  unfold find_mapping at h
  split at h
  next m1 heq =>
    injection h with h2
    subst h2
    exact findSnd_mem _ _ _ heq
  next heq1 =>
    split at h
    next m2 heq2 =>
      injection h with h2
      subst h2
      split at heq2
      next aliased heq3 => exact findSnd_mem _ _ _ heq2
      next heq3 => simp at heq2
    next heq2 =>
      exact findSnd_mem _ _ _ h

/-- Helper: the confidence of a tuple produced by matchRule is the
rule's confidence. -/
theorem matchRule_conf (n : String) (rule : HeuristicRule)
    (t : String × String × ℚ × String) (h : matchRule n rule = some t) :
    t.2.2.1 = rule.confidence := by
  simp only [matchRule] at h
  split at h
  · split at h
    · simp at h
    · split at h
      · simp at h
      · rw [Option.some.injEq] at h
        subst h
        rfl
  · split at h
    · rw [Option.some.injEq] at h
      subst h
      rfl
    · simp at h

/-- Helper: heuristic tuples over the default rule set have confidence
in the unit interval. -/
theorem apply_heuristics_default_conf (n : String) :
    ∀ t ∈ apply_heuristics n DEFAULT_HEURISTICS, 0 ≤ t.2.2.1 ∧ t.2.2.1 ≤ 1 := by
  intro t ht
  unfold apply_heuristics at ht
  have hmem := List.mem_mergeSort.1 ht
  rcases List.mem_filterMap.1 hmem with ⟨rule, hrule, hmatch⟩
  rw [matchRule_conf n rule t hmatch]
  have hall : ∀ r ∈ DEFAULT_HEURISTICS, 0 ≤ r.confidence ∧ r.confidence ≤ 1 := by
    with_unfolding_all decide
  exact hall rule hrule

/-- Helper: pattern tuples have confidence in the unit interval. -/
theorem apply_common_patterns_conf (n : String) :
    ∀ t ∈ apply_common_patterns n, 0 ≤ t.2.2.1 ∧ t.2.2.1 ≤ 1 := by
  intro t ht
  simp only [apply_common_patterns] at ht
  rw [List.mem_append, List.mem_append] at ht
  rcases ht with (ht | ht) | ht
  · split at ht
    · simp at ht; subst ht; norm_num
    · simp at ht
  · split at ht
    · simp at ht; subst ht; norm_num
    · simp at ht
  · split at ht
    · simp at ht; subst ht; norm_num
    · simp at ht

/-- Helper: category tuples have confidence in the unit interval. -/
theorem apply_category_conf (n : String) (category : Option String) :
    ∀ t ∈ apply_category_based_mapping n category, 0 ≤ t.2.2.1 ∧ t.2.2.1 ≤ 1 := by
  intro t ht
  simp only [apply_category_based_mapping] at ht
  repeat' split at ht
  all_goals simp at ht
  all_goals subst ht
  all_goals norm_num

/-- Helper: the validator keeps confidences in the unit interval. -/
theorem validate_brew_candidates_conf (eb ec : String → Bool) (cands : List Candidate)
    (h : ∀ c ∈ cands, 0 ≤ c.confidence ∧ c.confidence ≤ 1) :
    ∀ c ∈ validate_brew_candidates eb ec cands, 0 ≤ c.confidence ∧ c.confidence ≤ 1 := by
  intro c hc
  rw [validate_brew_candidates_eq_map] at hc
  rcases List.mem_map.1 hc with ⟨c0, hc0, rfl⟩
  have hb := h c0 hc0
  unfold specDowngrade
  split_ifs with h1 h2 h3 h4
  · exact hb
  · exact ⟨le_max_left _ _, max_le (by norm_num) (by linarith [hb.2])⟩
  · exact hb
  · exact ⟨le_max_left _ _, max_le (by norm_num) (by linarith [hb.2])⟩
  · exact hb

/-- Helper: every gathered candidate has confidence in the unit interval
when the registry's confidences do. -/
theorem gather_conf (registry : Registry) (package : NormalizedItem)
    (hreg : ∀ p ∈ registry.mappings, 0 ≤ p.2.confidence ∧ p.2.confidence ≤ 1) :
    ∀ c ∈ gatherCandidates registry package, 0 ≤ c.confidence ∧ c.confidence ≤ 1 := by
  intro c hc
  cases hfm : find_mapping registry package.source_name with
  | some m =>
      simp only [gatherCandidates, hfm, List.isEmpty_cons, Bool.false_eq_true, if_false,
        List.mem_append, List.mem_singleton, List.mem_map] at hc
      rcases hc with (hc | ⟨t, ht, rfl⟩) | ⟨t, ht, rfl⟩
      · subst hc
        obtain ⟨p, hp, hpm⟩ := find_mapping_mem registry package.source_name m hfm
        have := hreg p hp
        rw [hpm] at this
        exact this
      · exact apply_common_patterns_conf package.source_name t ht
      · exact apply_category_conf package.source_name package.category t ht
  | none =>
      simp only [gatherCandidates, hfm, List.isEmpty_nil, if_true, List.nil_append,
        List.mem_append, List.mem_map] at hc
      rcases hc with (⟨t, ht, rfl⟩ | ⟨t, ht, rfl⟩) | ⟨t, ht, rfl⟩
      · exact apply_heuristics_default_conf package.source_name t ht
      · exact apply_common_patterns_conf package.source_name t ht
      · exact apply_category_conf package.source_name package.category t ht

/-- Helper: the post-validation list also stays in the unit interval. -/
theorem pipeline_conf (eb ec : String → Bool) (registry : Registry) (verify : Bool)
    (package : NormalizedItem)
    (hreg : ∀ p ∈ registry.mappings, 0 ≤ p.2.confidence ∧ p.2.confidence ≤ 1) :
    ∀ c ∈ pipelineCandidates eb ec registry verify package,
      0 ≤ c.confidence ∧ c.confidence ≤ 1 := by
  intro c hc
  simp only [pipelineCandidates] at hc
  split at hc
  · exact gather_conf registry package hreg c (List.mem_filter.1 hc).1
  · exact gather_conf registry package hreg c hc

/-- Claim C9.  Every candidate produced by any stage of the engine has
confidence in [0, 1]: the gathered candidates (registry conversion,
heuristics over the default rules, patterns, category mapping), the
post-validation list of the mapper, and the output of the validator's
downgrade, assuming the registry's stored confidences are in [0, 1]
(pydantic enforces this bound on construction). -/
theorem candidate_confidence_bounds (registry : Registry) (package : NormalizedItem)
    (eb ec : String → Bool) (verify : Bool) (cands : List Candidate)
    (hreg : ∀ p ∈ registry.mappings, 0 ≤ p.2.confidence ∧ p.2.confidence ≤ 1) :
    (∀ c ∈ gatherCandidates registry package, 0 ≤ c.confidence ∧ c.confidence ≤ 1) ∧
    (∀ c ∈ pipelineCandidates eb ec registry verify package,
      0 ≤ c.confidence ∧ c.confidence ≤ 1) ∧
    ((∀ c ∈ cands, 0 ≤ c.confidence ∧ c.confidence ≤ 1) →
      ∀ c ∈ validate_brew_candidates eb ec cands, 0 ≤ c.confidence ∧ c.confidence ≤ 1) :=
  ⟨gather_conf registry package hreg,
   pipeline_conf eb ec registry verify package hreg,
   fun h => validate_brew_candidates_conf eb ec cands h⟩

/-- Witness for claim C9 at a concrete input: the fd candidate gathered
for fd-find over the empty registry has confidence in [0, 1]. -/
theorem candidate_confidence_bounds_witness :
    0 ≤ cFdBrew.confidence ∧ cFdBrew.confidence ≤ 1 :=
  (candidate_confidence_bounds emptyRegistry itemFdFind (fun _ => true) (fun _ => true)
    false [] (by simp [emptyRegistry])).1 cFdBrew (by with_unfolding_all decide)

/-- Claim C10.  A result whose candidate is absent is never excluded by
the confidence filter, for every results list, decisions filter, and
min_confidence threshold: its membership in the filtered output depends
only on the decision filter (a falsy decisions argument filters
nothing). -/
theorem filter_keeps_candidateless (results : List MappingResult)
    (decisions : Option (List Decision)) (min_confidence : ℚ) (r : MappingResult)
    (h : r.candidate = none) :
    r ∈ filter_mapping_results results decisions min_confidence ↔
      r ∈ results ∧
        (decisionTruthy decisions = true →
          (decisions.getD []).contains r.decision = true) := by
  unfold filter_mapping_results
  rw [List.mem_filter]
  apply and_congr_right'
  rw [h]
  simp only []
  cases htr : decisionTruthy decisions <;>
    cases hco : (decisions.getD []).contains r.decision <;>
      simp [htr, hco]

/-- Witness for claim C10 at a concrete input: a candidate-less MANUAL
result survives filtering with min_confidence 0.9 and no decisions
filter. -/
theorem filter_keeps_candidateless_witness :
    manualResult ∈ filter_mapping_results [manualResult] none (0.9 : ℚ) :=
  (filter_keeps_candidateless [manualResult] none (0.9 : ℚ) manualResult rfl).2
    ⟨List.mem_cons_self _ _, by intro hf; cases hf⟩
